import Mathlib

/-!
Verification of the data-shaping logic of `dashboard.py` (lab-timetable
dashboard): the loader/normalizer (`load_data`), the aggregation section
(sessions by day/hour, top subjects, room-utilization heatmap) and the
calendar-view filter/timeline projection, shallowly embedded as Lean
functions over lists of rows.
-/

namespace Dashboard

/-- Zero-padded two-digit decimal rendering, the `{n:02d}` format used by
`load_data` for hours and minutes (values in the data are `< 100`, so padding
to width 2 is all the format directive does there). -/
def pad2 (n : Nat) : String :=
  if n < 10 then "0" ++ toString n else toString n

/-- `f"{x//100:02d}:{x % 100:02d}"` from `load_data`: the derived
`Start_Time` / `End_Time` string of an `HHMM`-encoded time. -/
def timeStr (x : Nat) : String :=
  pad2 (x / 100) ++ ":" ++ pad2 (x % 100)

/-- `(df['End'] - df['Start']) // 100 + ((df['End'] - df['Start']) % 100) / 60`
from `load_data`.  Python `//` and `%` are floor division and the matching
modulus, i.e. `Int.fdiv` / `Int.fmod`; the final `/ 60` is true division,
modelled exactly in `ℚ`. -/
def duration (s e : Nat) : ℚ :=
  (((e : Int) - (s : Int)).fdiv 100 : ℚ) +
    ((((e : Int) - (s : Int)).fmod 100 : Int) : ℚ) / 60

/-- The minute-granular duration the spec prescribes:
`(end_total_minutes − start_total_minutes) / 60` with
`total_minutes = (value div 100)×60 + (value mod 100)`. -/
def durationSpec (s e : Nat) : ℚ :=
  (((e / 100 * 60 + e % 100 : Nat) : ℚ) - ((s / 100 * 60 + s % 100 : Nat) : ℚ)) / 60

/-- The `day_map` dict of `load_data`; `none` models a key miss (pandas `NaN`
after `.map`). -/
def day_map (d : String) : Option String :=
  if d = "U" then some "Sunday"
  else if d = "M" then some "Monday"
  else if d = "T" then some "Tuesday"
  else if d = "W" then some "Wednesday"
  else if d = "R" then some "Thursday"
  else if d = "S" then some "Saturday"
  else none

/-- `df['Days'].map(day_map).fillna(df['Days'])`: the derived `Day_Full`
value of a `Days` string. -/
def dayFull (d : String) : String :=
  (day_map d).getD d

/-- The `day_order_map` dict (line 125), keyed on the raw `Days` codes. -/
def day_order_map (d : String) : Option Nat :=
  if d = "U" then some 0
  else if d = "M" then some 1
  else if d = "T" then some 2
  else if d = "W" then some 3
  else if d = "R" then some 4
  else if d = "S" then some 5
  else none

/-- The `day_to_date` dict of the timeline projection (lines 214–217), keyed
on full day names. -/
def day_to_date (d : String) : Option String :=
  if d = "Sunday" then some "2024-01-07"
  else if d = "Monday" then some "2024-01-08"
  else if d = "Tuesday" then some "2024-01-09"
  else if d = "Wednesday" then some "2024-01-10"
  else if d = "Thursday" then some "2024-01-11"
  else if d = "Saturday" then some "2024-01-13"
  else none

/-- The canonical week ordering `day_order` used by the charts and the
heatmap column reordering. -/
def day_order : List String :=
  ["Sunday", "Monday", "Tuesday", "Wednesday", "Thursday", "Saturday"]

/-- One input row of the spreadsheet, with the columns `load_data` reads.
`Name` is `Option`al: `none` models a missing (`NaN`) instructor cell. -/
structure RawRow where
  Subject : String
  Number : Int
  Days : String
  Start : Nat
  End : Nat
  Bldg : String
  Room : String
  Section : String
  Name : Option String
  Email : String
deriving DecidableEq, Repr

/-- One row of the normalized table: the input columns plus the columns
derived by `load_data`, plus `Day_Order`, the column the analytics section
adds later (line 126); `none` models the column being absent (after the
loader) or the value being `NaN` (unmapped code). -/
structure Row extends RawRow where
  Start_Time : String
  End_Time : String
  Start_Hour : Nat
  Duration : ℚ
  Day_Full : String
  Course : String
  Room_ID : String
  Day_Order : Option Nat
deriving DecidableEq, Repr

/-- The per-row normalization performed by `load_data`. -/
def normalizeRow (x : RawRow) : Row :=
  { toRawRow := x
    Start_Time := timeStr x.Start
    End_Time := timeStr x.End
    Start_Hour := x.Start / 100
    Duration := duration x.Start x.End
    Day_Full := dayFull x.Days
    Course := x.Subject ++ " " ++ toString x.Number
    Room_ID := "Bldg " ++ x.Bldg ++ " - Room " ++ x.Room
    Day_Order := none }

/-- `load_data`: normalize every input row; one output row per input row. -/
def load_data (raws : List RawRow) : List Row :=
  raws.map normalizeRow

/-- `df['Day_Order'] = df['Days'].map(day_order_map)` (line 126): the one
in-place change the analytics section makes to the loaded table. -/
def addDayOrder (rows : List Row) : List Row :=
  rows.map (fun r => { r with Day_Order := day_order_map r.Days })

/-! ### `value_counts` machinery -/

/-- Number of occurrences of `a` in `xs` (one column's count of one value). -/
def countOf [DecidableEq α] (xs : List α) (a : α) : Nat :=
  (xs.filter (fun x => x = a)).length

/-- Distinct values of a column in first-encounter order, skipping values
already `seen` (the order a pandas hashtable count produces before sorting). -/
def firstUniquesAux [DecidableEq α] (seen : List α) : List α → List α
  | [] => []
  | x :: xs =>
    if x ∈ seen then firstUniquesAux seen xs
    else x :: firstUniquesAux (x :: seen) xs

/-- Distinct values of a column in first-encounter order
(`series.unique()`, and the index set of a `value_counts`). -/
def firstUniques [DecidableEq α] (l : List α) : List α :=
  firstUniquesAux [] l

/-- Stable insertion (descending by count) used to model the
`value_counts` sort. -/
def insertDesc (p : α × Nat) : List (α × Nat) → List (α × Nat)
  | [] => [p]
  | q :: qs => if q.2 < p.2 then p :: q :: qs else q :: insertDesc p qs

/-- Stable insertion sort, descending by count. -/
def sortDesc : List (α × Nat) → List (α × Nat)
  | [] => []
  | p :: ps => insertDesc p (sortDesc ps)

/-- `series.value_counts()`: one `(value, count)` pair per distinct value,
sorted by count descending; ties keep first-encounter order. -/
def value_counts [DecidableEq α] (xs : List α) : List (α × Nat) :=
  sortDesc ((firstUniques xs).map (fun a => (a, countOf xs a)))

/-- `series.idxmax()`: the index label of the first entry attaining the
maximum value; `none` on an empty series (where pandas raises). -/
def idxmax (l : List (α × Nat)) : Option α :=
  (l.find? (fun p => l.all (fun q => q.2 ≤ p.2))).map (fun p => p.1)

/-! ### Calendar-view filter and projections -/

/-- The four selector widgets' state: each is `"All"` or one concrete value. -/
structure Selection where
  building : String
  room : String
  subject : String
  day : String
deriving DecidableEq, Repr

/-- The sequential filtering of lines 189–197: each non-`"All"` selector
narrows the frame in turn. -/
def filtered_df (sel : Selection) (rows : List Row) : List Row :=
  let d1 := if sel.building = "All" then rows
            else rows.filter (fun r => r.Bldg = sel.building)
  let d2 := if sel.room = "All" then d1
            else d1.filter (fun r => r.Room = sel.room)
  let d3 := if sel.subject = "All" then d2
            else d2.filter (fun r => r.Subject = sel.subject)
  if sel.day = "All" then d3
  else d3.filter (fun r => r.Day_Full = sel.day)

/-- The conjunction of the four filter predicates, as the spec states it. -/
def matchesSelection (sel : Selection) (r : Row) : Prop :=
  (sel.building = "All" ∨ r.Bldg = sel.building) ∧
  (sel.room = "All" ∨ r.Room = sel.room) ∧
  (sel.subject = "All" ∨ r.Subject = sel.subject) ∧
  (sel.day = "All" ∨ r.Day_Full = sel.day)

instance (sel : Selection) (r : Row) : Decidable (matchesSelection sel r) := by
  unfold matchesSelection; infer_instance

/-- Generic insertion by a boolean `le` (used only to model Python
`sorted`; the claims about option lists are membership claims). -/
def insertLe (le : α → α → Bool) (a : α) : List α → List α
  | [] => [a]
  | b :: bs => if le a b then a :: b :: bs else b :: insertLe le a bs

/-- Insertion sort by a boolean `le`, modelling Python `sorted`. -/
def sortLe (le : α → α → Bool) : List α → List α
  | [] => []
  | a :: as' => insertLe le a (sortLe le as')

/-- String order used by Python `sorted` on the option lists. -/
def strLe (a b : String) : Bool := ¬ b < a

/-- Lines 162–171: the `Room` options recomputed from the `Building`
selection (`sorted(df[...]['Room'].unique().tolist())`). -/
def room_options (rows : List Row) (selected_building : String) : List String :=
  if selected_building = "All" then
    sortLe strLe (firstUniques (rows.map (fun r => r.Room)))
  else
    sortLe strLe (firstUniques
      ((rows.filter (fun r => r.Bldg = selected_building)).map (fun r => r.Room)))

/-- The instructor part of the hover string:
`r['Name'] if pd.notna(r['Name']) else 'TBA'` — `none` (`NaN`) falls back to
`"TBA"`, any actual string (blank included) is used as-is. -/
def instructorDisplay (n : Option String) : String :=
  match n with
  | none => "TBA"
  | some s => s

/-- The hover text of line 226. -/
def hoverText (r : Row) : String :=
  "<b>" ++ r.Course ++ "</b><br>Section: " ++ r.Section ++
    "<br>Time: " ++ r.Start_Time ++ "-" ++ r.End_Time ++
    "<br>Room: " ++ r.Room_ID ++
    "<br>Instructor: " ++ instructorDisplay r.Name

/-- Lines 303–306: the busiest-day quick statistic. -/
def busiest_day (rows : List Row) : String :=
  if 0 < rows.length then
    (idxmax (value_counts (rows.map (fun r => r.Day_Full)))).getD "N/A"
  else "N/A"

/-! ### Room-utilization heatmap (lines 125–135) -/

/-- `df['Room_ID'].value_counts().head(15).index.tolist()`. -/
def top_rooms (rows : List Row) : List String :=
  ((value_counts (rows.map (fun r => r.Room_ID))).take 15).map (fun p => p.1)

/-- `df[df['Room_ID'].isin(top_rooms)]`. -/
def heatRestricted (rows : List Row) : List Row :=
  rows.filter (fun r => decide (r.Room_ID ∈ top_rooms rows))

/-- The row labels of the pivot: the `Room_ID` groups present in the
restricted frame. -/
def heat_rooms (rows : List Row) : List String :=
  firstUniques ((heatRestricted rows).map (fun r => r.Room_ID))

/-- `day_cols = [d for d in day_order if d in heatmap_data.columns]`
(line 134): the retained, reordered day columns. -/
def day_cols (rows : List Row) : List String :=
  day_order.filter (fun d => decide (d ∈ (heatRestricted rows).map (fun r => r.Day_Full)))

/-- One cell of the pivot: `groupby(['Room_ID','Day_Full']).size()` with
`fill_value=0` for missing combinations. -/
def heat_cell (rows : List Row) (room day : String) : Nat :=
  ((heatRestricted rows).filter
    (fun r => decide (r.Room_ID = room ∧ r.Day_Full = day))).length

/-- The sum of every cell of the final heatmap matrix. -/
def heat_sum (rows : List Row) : Nat :=
  ((heat_rooms rows).map
    (fun ro => ((day_cols rows).map (fun d => heat_cell rows ro d)).sum)).sum

/-! ### An `"HH:MM"` parser (spec §8's round-trip: `hours*100+minutes`) -/

/-- Decimal value of one digit character. -/
def digitVal (c : Char) : Option Nat :=
  if c.isDigit then some (c.toNat - Char.toNat '0') else none

/-- Parse a five-character `"HH:MM"` string back to its `HHMM` integer
`hours*100 + minutes`. -/
def parseHHMM (s : String) : Option Nat :=
  match s.toList with
  | [h1, h2, c, m1, m2] =>
    if c = ':' then
      match digitVal h1, digitVal h2, digitVal m1, digitVal m2 with
      | some a, some b, some x, some y => some ((10 * a + b) * 100 + (10 * x + y))
      | _, _, _, _ => none
    else none
  | _ => none

/-! ### Sample inputs (spec §8's end-to-end scenario row and variations) -/

/-- A sample row: `CS 101`, Monday 09:00–09:50, instructor missing. -/
def rawCS : RawRow :=
  ⟨"CS", 101, "M", 900, 950, "A", "101", "1", none, "x@x.com"⟩

/-- A sample row whose `Days` value is the multi-character code `"MW"`. -/
def rawMW : RawRow :=
  ⟨"CS", 101, "MW", 900, 950, "A", "101", "1", none, "x@x.com"⟩

/-- A sample row with a blank — but not missing — instructor name. -/
def rawBlank : RawRow :=
  ⟨"CS", 101, "M", 900, 950, "A", "101", "1", some "", "x@x.com"⟩

/-- A three-row sample table: two Monday sessions and one Tuesday session. -/
def sampleRaws : List RawRow :=
  [⟨"CS", 101, "M", 900, 950, "A", "101", "1", none, "x@x.com"⟩,
   ⟨"MATH", 201, "M", 1000, 1050, "B", "202", "1", some "Jo", "y@y.com"⟩,
   ⟨"CS", 102, "T", 900, 950, "A", "103", "2", none, "z@z.com"⟩]

/-! ## Theorems -/

/-- C1: the code's `Duration` at the failing input `Start=1330, End=1500`:
it evaluates to `13/6 ≈ 2.167` hours, not the minute-granular `3/2` the spec
requires (the borrow from `15:00 − 13:30` is mishandled); on a borrow-free
input such as `900 → 950` the two agree at `5/6`. -/
theorem duration_borrow_bug :
    duration 1330 1500 = 13 / 6 ∧
    durationSpec 1330 1500 = 3 / 2 ∧
    duration 1330 1500 ≠ durationSpec 1330 1500 ∧
    duration 900 950 = 5 / 6 ∧ durationSpec 900 950 = 5 / 6 := by
  have hfd : (((1500 : Nat) : Int) - ((1330 : Nat) : Int)).fdiv 100 = 1 := by decide
  have hfm : (((1500 : Nat) : Int) - ((1330 : Nat) : Int)).fmod 100 = 70 := by decide
  have h1 : duration 1330 1500 = 13 / 6 := by
    unfold duration; rw [hfd, hfm]; norm_num
  have h2 : durationSpec 1330 1500 = 3 / 2 := by
    unfold durationSpec; norm_num
  have hfd2 : (((950 : Nat) : Int) - ((900 : Nat) : Int)).fdiv 100 = 0 := by decide
  have hfm2 : (((950 : Nat) : Int) - ((900 : Nat) : Int)).fmod 100 = 50 := by decide
  have h3 : duration 900 950 = 5 / 6 := by
    unfold duration; rw [hfd2, hfm2]; norm_num
  have h4 : durationSpec 900 950 = 5 / 6 := by
    unfold durationSpec; norm_num
  refine ⟨h1, h2, ?_, h3, h4⟩
  rw [h1, h2]
  norm_num

/-- C2: for every `t ≤ 2359` whose minute part is `< 60`, the derived time
string is the zero-padded `"HH:MM"` string of `t div 100` and `t mod 100`,
and parsing it back as `hours*100 + minutes` recovers `t`. -/
theorem timeStr_roundtrip (t : Nat) (h1 : t ≤ 2359) (h2 : t % 100 < 60) :
    timeStr t = pad2 (t / 100) ++ ":" ++ pad2 (t % 100) ∧
    parseHHMM (timeStr t) = some t := by
  refine ⟨rfl, ?_⟩
  have key : ∀ h : Nat, h < 24 → ∀ m : Nat, m < 60 →
      parseHHMM (pad2 h ++ ":" ++ pad2 m) = some (h * 100 + m) := by decide
  have hh : t / 100 < 24 := by omega
  have hk := key (t / 100) hh (t % 100) h2
  have hp : parseHHMM (timeStr t) = some (t / 100 * 100 + t % 100) := hk
  rw [hp]
  exact congrArg some (by omega)

/-- Witness for `timeStr_roundtrip` at `t = 1330`. -/
theorem timeStr_roundtrip_witness :
    (1330 : Nat) ≤ 2359 ∧ 1330 % 100 < 60 ∧
    (timeStr 1330 = pad2 (1330 / 100) ++ ":" ++ pad2 (1330 % 100) ∧
      parseHHMM (timeStr 1330) = some 1330) :=
  ⟨by decide, by decide, timeStr_roundtrip 1330 (by decide) (by decide)⟩

/-- C3: `Day_Full` maps each of the six day codes through the fixed table,
passes any non-key string through unchanged, and is never empty when `Days`
is non-empty. -/
theorem dayFull_spec (d : String) :
    (dayFull "U" = "Sunday" ∧ dayFull "M" = "Monday" ∧ dayFull "T" = "Tuesday" ∧
     dayFull "W" = "Wednesday" ∧ dayFull "R" = "Thursday" ∧ dayFull "S" = "Saturday") ∧
    (d ∉ (["U", "M", "T", "W", "R", "S"] : List String) → dayFull d = d) ∧
    (d ≠ "" → dayFull d ≠ "") := by
  refine ⟨by decide, ?_, ?_⟩
  · intro hd
    simp only [List.mem_cons, List.not_mem_nil, or_false, not_or] at hd
    obtain ⟨hU, hM, hT, hW, hR, hS⟩ := hd
    unfold dayFull day_map
    rw [if_neg hU, if_neg hM, if_neg hT, if_neg hW, if_neg hR, if_neg hS]
    rfl
  · intro hne
    unfold dayFull day_map
    repeat' split
    all_goals simp_all

/-- Witness for `dayFull_spec` at `d = "X"` (unknown code). -/
theorem dayFull_spec_witness :
    dayFull "M" = "Monday" ∧ dayFull "X" = "X" ∧ dayFull "X" ≠ "" :=
  ⟨(dayFull_spec "X").1.2.1, (dayFull_spec "X").2.1 (by decide),
    (dayFull_spec "X").2.2 (by decide)⟩

/-! ### Helper lemmas on `firstUniques`, the sorts, and `value_counts` -/

theorem mem_firstUniquesAux [DecidableEq α] (l : List α) (seen : List α) (a : α) :
    a ∈ firstUniquesAux seen l ↔ a ∈ l ∧ a ∉ seen := by
  induction l generalizing seen with
  | nil => simp [firstUniquesAux]
  | cons x xs ih =>
    simp only [firstUniquesAux]
    split
    · rename_i hx
      rw [ih]
      simp only [List.mem_cons]
      constructor
      · rintro ⟨h1, h2⟩
        exact ⟨Or.inr h1, h2⟩
      · rintro ⟨h1 | h1, h2⟩
        · exact absurd (h1 ▸ hx) h2
        · exact ⟨h1, h2⟩
    · rename_i hx
      simp only [List.mem_cons, ih, List.mem_cons]
      constructor
      · rintro (rfl | ⟨h1, h2⟩)
        · exact ⟨Or.inl rfl, hx⟩
        · exact ⟨Or.inr h1, fun hs => h2 (Or.inr hs)⟩
      · rintro ⟨rfl | h1, h2⟩
        · exact Or.inl rfl
        · by_cases hax : a = x
          · exact Or.inl hax
          · exact Or.inr ⟨h1, fun hs => hs.elim hax h2⟩

theorem mem_firstUniques [DecidableEq α] (l : List α) (a : α) :
    a ∈ firstUniques l ↔ a ∈ l := by
  unfold firstUniques
  rw [mem_firstUniquesAux]
  simp

theorem nodup_firstUniquesAux [DecidableEq α] (l : List α) (seen : List α) :
    (firstUniquesAux seen l).Nodup := by
  induction l generalizing seen with
  | nil => exact List.nodup_nil
  | cons x xs ih =>
    simp only [firstUniquesAux]
    split
    · exact ih seen
    · refine List.nodup_cons.mpr ⟨?_, ih (x :: seen)⟩
      rw [mem_firstUniquesAux]
      rintro ⟨-, h2⟩
      exact h2 (List.mem_cons_self x seen)

theorem nodup_firstUniques [DecidableEq α] (l : List α) : (firstUniques l).Nodup :=
  nodup_firstUniquesAux l []

theorem mem_insertDesc (p q : α × Nat) (l : List (α × Nat)) :
    q ∈ insertDesc p l ↔ q = p ∨ q ∈ l := by
  induction l with
  | nil => simp [insertDesc]
  | cons x xs ih =>
    simp only [insertDesc]
    split
    · simp [List.mem_cons]
    · simp only [List.mem_cons, ih]
      tauto

theorem mem_sortDesc (q : α × Nat) (l : List (α × Nat)) :
    q ∈ sortDesc l ↔ q ∈ l := by
  induction l with
  | nil => simp [sortDesc]
  | cons x xs ih => simp [sortDesc, mem_insertDesc, ih]

theorem insertDesc_ne_nil (p : α × Nat) (l : List (α × Nat)) :
    insertDesc p l ≠ [] := by
  cases l with
  | nil => simp [insertDesc]
  | cons x xs =>
    simp only [insertDesc]
    split <;> simp

theorem sortDesc_head_max (l : List (α × Nat)) (p : α × Nat) (t : List (α × Nat))
    (h : sortDesc l = p :: t) (q : α × Nat) (hq : q ∈ sortDesc l) : q.2 ≤ p.2 := by
  induction l generalizing p t with
  | nil => simp [sortDesc] at hq
  | cons x xs ih =>
    rw [sortDesc] at h hq
    rcases hxs : sortDesc xs with _ | ⟨h1, t1⟩
    · rw [hxs] at h hq
      simp only [insertDesc, List.mem_singleton] at h hq
      have hp : x = p := ((List.cons.injEq ..).mp h).1
      rw [hq, ← hp]
    · rw [hxs] at h hq
      by_cases hcmp : h1.2 < x.2
      · rw [insertDesc, if_pos hcmp] at h hq
        have hp : x = p := ((List.cons.injEq ..).mp h).1
        rw [← hp]
        rcases List.mem_cons.mp hq with rfl | hq2
        · exact Nat.le_refl _
        · exact Nat.le_trans (ih h1 t1 hxs (hxs ▸ hq2)) (Nat.le_of_lt hcmp)
      · rw [insertDesc, if_neg hcmp] at h hq
        have hp : h1 = p := ((List.cons.injEq ..).mp h).1
        rw [← hp]
        rcases List.mem_cons.mp hq with rfl | hq2
        · exact Nat.le_refl _
        · rcases (mem_insertDesc x q t1).mp hq2 with rfl | hq3
          · exact Nat.le_of_not_lt hcmp
          · exact ih h1 t1 hxs (hxs ▸ List.mem_cons_of_mem h1 hq3)

theorem mem_value_counts [DecidableEq α] (xs : List α) (p : α × Nat) :
    p ∈ value_counts xs ↔ p.1 ∈ xs ∧ p.2 = countOf xs p.1 := by
  unfold value_counts
  rw [mem_sortDesc]
  simp only [List.mem_map, mem_firstUniques]
  constructor
  · rintro ⟨a, ha, rfl⟩
    exact ⟨ha, rfl⟩
  · rintro ⟨h1, h2⟩
    exact ⟨p.1, h1, by rw [← h2]⟩

theorem value_counts_ne_nil [DecidableEq α] (x : α) (xs : List α) :
    value_counts (x :: xs) ≠ [] := by
  unfold value_counts firstUniques
  rw [firstUniquesAux, if_neg (List.not_mem_nil x), List.map_cons, sortDesc]
  exact insertDesc_ne_nil _ _

theorem countOf_eq_zero [DecidableEq α] (xs : List α) (a : α) (h : a ∉ xs) :
    countOf xs a = 0 := by
  unfold countOf
  rw [List.length_eq_zero]
  rw [List.filter_eq_nil_iff]
  intro b hb
  simp only [decide_eq_true_eq]
  rintro rfl
  exact h hb

theorem idxmax_value_counts [DecidableEq α] (xs : List α) (p : α × Nat)
    (t : List (α × Nat)) (h : value_counts xs = p :: t) :
    idxmax (value_counts xs) = some p.1 := by
  unfold idxmax
  rw [h, List.find?_cons_of_pos]
  · rfl
  · rw [List.all_eq_true]
    intro q hq
    simp only [decide_eq_true_eq]
    have h2 : sortDesc ((firstUniques xs).map (fun a => (a, countOf xs a))) = p :: t := h
    exact sortDesc_head_max _ p t h2 q (by rw [h2]; exact hq)

theorem busiest_day_max (rows : List Row) (hne : rows ≠ []) :
    busiest_day rows ∈ rows.map (fun r => r.Day_Full) ∧
    ∀ d, countOf (rows.map (fun r => r.Day_Full)) d ≤
      countOf (rows.map (fun r => r.Day_Full)) (busiest_day rows) := by
  obtain ⟨r0, rest, rfl⟩ : ∃ r0 rest, rows = r0 :: rest := by
    cases rows with
    | nil => exact absurd rfl hne
    | cons a l => exact ⟨a, l, rfl⟩
  obtain ⟨p, t, h⟩ : ∃ p t,
      value_counts ((r0 :: rest).map (fun r => r.Day_Full)) = p :: t := by
    rcases hvc : value_counts ((r0 :: rest).map (fun r => r.Day_Full)) with _ | ⟨p, t⟩
    · rw [List.map_cons] at hvc
      exact absurd hvc (value_counts_ne_nil _ _)
    · exact ⟨p, t, hvc⟩
  have hbd : busiest_day (r0 :: rest) = p.1 := by
    unfold busiest_day
    rw [if_pos (by simp), idxmax_value_counts _ p t h, Option.getD_some]
  have hpmem : p ∈ value_counts ((r0 :: rest).map (fun r => r.Day_Full)) := by
    rw [h]
    exact List.mem_cons_self p t
  obtain ⟨hp1, hp2⟩ := (mem_value_counts _ p).mp hpmem
  constructor
  · rw [hbd]
    exact hp1
  · intro d
    rw [hbd, ← hp2]
    by_cases hd : d ∈ (r0 :: rest).map (fun r => r.Day_Full)
    · have hmem : (d, countOf ((r0 :: rest).map (fun r => r.Day_Full)) d) ∈
          value_counts ((r0 :: rest).map (fun r => r.Day_Full)) :=
        (mem_value_counts _ _).mpr ⟨hd, rfl⟩
      exact sortDesc_head_max _ p t h _ hmem
    · rw [countOf_eq_zero _ d hd]
      exact Nat.zero_le _

/-- C8: for every filter selection and table, the busiest-day statistic on
the empty filtered subset is the sentinel `"N/A"`, and on a non-empty
subset it is a `Day_Full` value occurring in the subset whose session count
is maximal; it is total (never raises). -/
theorem busiest_day_claim (sel : Selection) (rows : List Row) :
    (filtered_df sel rows = [] → busiest_day (filtered_df sel rows) = "N/A") ∧
    (filtered_df sel rows ≠ [] →
      busiest_day (filtered_df sel rows) ∈
        (filtered_df sel rows).map (fun r => r.Day_Full) ∧
      ∀ d, countOf ((filtered_df sel rows).map (fun r => r.Day_Full)) d ≤
        countOf ((filtered_df sel rows).map (fun r => r.Day_Full))
          (busiest_day (filtered_df sel rows))) := by
  constructor
  · intro h
    rw [h]
    rfl
  · intro h
    exact busiest_day_max _ h

/-- Witness for `busiest_day_claim`: the all-`"All"` selection over the
three-row sample table (two Monday sessions, one Tuesday). -/
theorem busiest_day_claim_witness :
    busiest_day (filtered_df ⟨"All", "All", "All", "All"⟩ (load_data sampleRaws)) ∈
      (filtered_df ⟨"All", "All", "All", "All"⟩ (load_data sampleRaws)).map
        (fun r => r.Day_Full) ∧
    ∀ d, countOf ((filtered_df ⟨"All", "All", "All", "All"⟩
        (load_data sampleRaws)).map (fun r => r.Day_Full)) d ≤
      countOf ((filtered_df ⟨"All", "All", "All", "All"⟩
          (load_data sampleRaws)).map (fun r => r.Day_Full))
        (busiest_day (filtered_df ⟨"All", "All", "All", "All"⟩
          (load_data sampleRaws))) :=
  (busiest_day_claim ⟨"All", "All", "All", "All"⟩ (load_data sampleRaws)).2
    (List.cons_ne_nil _ _)

/-- C5: the filtered subset of the calendar view is exactly the rows
satisfying the conjunction of the four (non-`"All"`) equality predicates. -/
theorem filtered_df_mem (sel : Selection) (rows : List Row) (r : Row) :
    r ∈ filtered_df sel rows ↔ r ∈ rows ∧ matchesSelection sel r := by
  unfold filtered_df matchesSelection
  split_ifs with h1 h2 h3 h4 <;>
    simp_all [List.mem_filter, decide_eq_true_eq] <;> tauto

theorem mem_insertLe (le : α → α → Bool) (a b : α) (l : List α) :
    b ∈ insertLe le a l ↔ b = a ∨ b ∈ l := by
  induction l with
  | nil => simp [insertLe]
  | cons x xs ih =>
    simp only [insertLe]
    split
    · simp [List.mem_cons]
    · simp only [List.mem_cons, ih]
      tauto

theorem mem_sortLe (le : α → α → Bool) (b : α) (l : List α) :
    b ∈ sortLe le l ↔ b ∈ l := by
  induction l with
  | nil => simp [sortLe]
  | cons x xs ih => simp [sortLe, mem_insertLe, ih]

/-- C9: for every table and `Building` selection, the `Room` options are
exactly the rooms of rows in the selected building (all rooms when the
selection is `"All"`); being a function of the selection, they change with
it. -/
theorem room_options_mem (rows : List Row) (b x : String) :
    x ∈ room_options rows b ↔
      ∃ r, r ∈ rows ∧ r.Room = x ∧ (b = "All" ∨ r.Bldg = b) := by
  unfold room_options
  split_ifs with hb
  · subst hb
    simp only [mem_sortLe, mem_firstUniques, List.mem_map]
    constructor
    · rintro ⟨r, hr, rfl⟩
      exact ⟨r, hr, rfl, by simp⟩
    · rintro ⟨r, hr, rfl, -⟩
      exact ⟨r, hr, rfl⟩
  · simp only [mem_sortLe, mem_firstUniques, List.mem_map, List.mem_filter,
      decide_eq_true_eq]
    constructor
    · rintro ⟨r, ⟨hr, hbld⟩, rfl⟩
      exact ⟨r, hr, rfl, Or.inr hbld⟩
    · rintro ⟨r, hr, rfl, hbld | hbld⟩
      · exact absurd hbld hb
      · exact ⟨r, ⟨hr, hbld⟩, rfl⟩

/-- C7 counterexample: a blank — but not missing — instructor name is
rendered in the hover text as the blank string, not as `"TBA"`
(`pd.notna("")` is true, so the fallback does not fire). -/
theorem hover_blank_counterexample :
    (normalizeRow rawBlank).Name = some "" ∧
    hoverText (normalizeRow rawBlank) =
      "<b>CS 101</b><br>Section: 1<br>Time: 09:00-09:50<br>Room: Bldg A - Room 101<br>Instructor: " ∧
    hoverText (normalizeRow rawBlank) ≠
      "<b>CS 101</b><br>Section: 1<br>Time: 09:00-09:50<br>Room: Bldg A - Room 101<br>Instructor: TBA" := by
  refine ⟨rfl, by decide, by decide⟩

/-- C7 (amended): in the hover text the instructor field falls back to
`"TBA"` exactly when `Name` is missing (`NaN`); an actual string — blank
included — is rendered as itself; and the loader leaves the underlying
`Name` column exactly as the source provided it. -/
theorem hover_instructor_amended (r : Row) (raws : List RawRow) :
    instructorDisplay none = "TBA" ∧
    (∀ s, instructorDisplay (some s) = s) ∧
    hoverText r =
      "<b>" ++ r.Course ++ "</b><br>Section: " ++ r.Section ++ "<br>Time: " ++
        r.Start_Time ++ "-" ++ r.End_Time ++ "<br>Room: " ++ r.Room_ID ++
        "<br>Instructor: " ++ instructorDisplay r.Name ∧
    (load_data raws).map (fun x => x.Name) = raws.map (fun x => x.Name) := by
  refine ⟨rfl, fun s => rfl, rfl, ?_⟩
  unfold load_data
  rw [List.map_map]
  rfl

/-- C10: the day-code lookup keys on the whole `Days` string: a `"MW"` row
is never split (one output row per input row), its `Day_Full` is the
unchanged string `"MW"`, and `"MW"` has no entry in the day-ordering map or
in the timeline's fixed day-to-date anchor map. -/
theorem multichar_days_claim (raws : List RawRow) (raw : RawRow)
    (h : raw.Days = "MW") :
    (load_data raws).length = raws.length ∧
    (normalizeRow raw).Day_Full = "MW" ∧
    day_map "MW" = none ∧ day_order_map "MW" = none ∧ day_to_date "MW" = none := by
  refine ⟨?_, ?_, by decide, by decide, by decide⟩
  · unfold load_data
    exact List.length_map raws normalizeRow
  · show dayFull raw.Days = "MW"
    rw [h]
    decide

/-- Witness for `multichar_days_claim` at the sample `"MW"` row. -/
theorem multichar_days_claim_witness :
    (load_data [rawMW]).length = [rawMW].length ∧
    (normalizeRow rawMW).Day_Full = "MW" ∧
    day_map "MW" = none ∧ day_order_map "MW" = none ∧ day_to_date "MW" = none :=
  multichar_days_claim [rawMW] rawMW rfl

/-- C4 counterexample: the analytics section's `Day_Order` assignment
(line 126) does mutate the loaded table — on the one-row table for `rawCS`
the `Day_Order` column goes from absent to `some 1`, so the table after the
aggregations is not the loader's table. -/
theorem day_order_mutation_counterexample :
    addDayOrder (load_data [rawCS]) ≠ load_data [rawCS] := by
  intro h
  have h2 := congrArg (List.map (fun r => r.Day_Order)) h
  have h3 : ([some 1] : List (Option Nat)) = [none] := by
    calc ([some 1] : List (Option Nat))
        = (addDayOrder (load_data [rawCS])).map (fun r => r.Day_Order) := by decide
      _ = (load_data [rawCS]).map (fun r => r.Day_Order) := h2
      _ = [none] := by decide
  exact (by decide : ([some 1] : List (Option Nat)) ≠ [none]) h3

/-- C4 (amended): the table is mutated exactly once after normalization —
the analytics section adds the `Day_Order` column (`Days` mapped through the
order table) — and that step changes no other column and no row count; the
aggregations themselves are functions of the table and change nothing. -/
theorem table_mutation_amended (rows : List Row) :
    (addDayOrder rows).length = rows.length ∧
    (addDayOrder rows).map (fun r => r.toRawRow) = rows.map (fun r => r.toRawRow) ∧
    (addDayOrder rows).map (fun r =>
        (r.Start_Time, r.End_Time, r.Start_Hour, r.Duration, r.Day_Full,
          r.Course, r.Room_ID)) =
      rows.map (fun r =>
        (r.Start_Time, r.End_Time, r.Start_Hour, r.Duration, r.Day_Full,
          r.Course, r.Room_ID)) ∧
    (addDayOrder rows).map (fun r => r.Day_Order) =
      rows.map (fun r => day_order_map r.Days) := by
  unfold addDayOrder
  refine ⟨List.length_map .., ?_, ?_, ?_⟩ <;> rw [List.map_map] <;> rfl

/-! ### Counting lemmas for the heatmap -/

theorem map_congr' (l : List β) (f g : β → γ) (h : ∀ a ∈ l, f a = g a) :
    l.map f = l.map g := by
  induction l with
  | nil => rfl
  | cons x xs ih =>
    simp only [List.map_cons]
    rw [h x (List.mem_cons_self ..), ih (fun a ha => h a (List.mem_cons_of_mem _ ha))]

theorem sum_map_add' (l : List β) (f g : β → Nat) :
    (l.map (fun k => f k + g k)).sum = (l.map f).sum + (l.map g).sum := by
  induction l with
  | nil => rfl
  | cons x xs ih =>
    simp only [List.map_cons, List.sum_cons, ih]
    omega

theorem sum_indicator [DecidableEq β] (b : β) (keys : List β) (hnd : keys.Nodup) :
    (keys.map (fun k => if b = k then 1 else 0)).sum = if b ∈ keys then 1 else 0 := by
  induction keys with
  | nil => simp
  | cons k ks ih =>
    rcases List.nodup_cons.mp hnd with ⟨hk, hks⟩
    rw [List.map_cons, List.sum_cons, ih hks]
    by_cases hbk : b = k
    · subst hbk
      rw [if_pos rfl, if_pos (List.mem_cons_self ..), if_neg hk]
    · rw [if_neg hbk]
      by_cases hbks : b ∈ ks
      · rw [if_pos hbks, if_pos (List.mem_cons_of_mem _ hbks)]
      · rw [if_neg hbks, if_neg (by simp [hbk, hbks])]

theorem sum_partition [DecidableEq β] (key : α → β) (xs : List α) (keys : List β)
    (hnd : keys.Nodup) :
    (keys.map (fun k => (xs.filter (fun x => decide (key x = k))).length)).sum =
      (xs.filter (fun x => decide (key x ∈ keys))).length := by
  induction xs with
  | nil => simp
  | cons x xs ih =>
    have hsplit : ∀ k, (List.filter (fun y => decide (key y = k)) (x :: xs)).length =
        (if key x = k then 1 else 0) +
          (List.filter (fun y => decide (key y = k)) xs).length := by
      intro k
      rw [List.filter_cons]
      by_cases hk : key x = k
      · simp [hk]
        omega
      · simp [hk]
    have hL : (keys.map
          (fun k => (List.filter (fun y => decide (key y = k)) (x :: xs)).length)).sum =
        (keys.map (fun k => if key x = k then 1 else 0)).sum +
          (keys.map (fun k => (List.filter (fun y => decide (key y = k)) xs).length)).sum := by
      rw [← sum_map_add']
      exact congrArg List.sum (map_congr' keys _ _ (fun k _ => hsplit k))
    rw [hL, sum_indicator _ _ hnd, ih, List.filter_cons]
    by_cases hx : key x ∈ keys
    · simp [hx]
      omega
    · simp [hx]

theorem filter_comm' (p q : α → Bool) (l : List α) :
    (l.filter p).filter q = (l.filter q).filter p := by
  rw [List.filter_filter, List.filter_filter]
  exact List.filter_congr (fun a _ => Bool.and_comm ..)

theorem heatRestricted_room_mem (rows : List Row) (r : Row)
    (hr : r ∈ heatRestricted rows) : r.Room_ID ∈ heat_rooms rows := by
  unfold heat_rooms
  rw [mem_firstUniques]
  exact List.mem_map_of_mem _ hr

theorem heat_sum_eq (rows : List Row) :
    heat_sum rows =
      ((heatRestricted rows).filter
        (fun r => decide (r.Day_Full ∈ day_order))).length := by
  have hndcols : (day_cols rows).Nodup :=
    List.Nodup.filter _ (by decide : day_order.Nodup)
  have hndrooms : (heat_rooms rows).Nodup := nodup_firstUniques _
  have hcell : ∀ ro d, heat_cell rows ro d =
      ((((heatRestricted rows).filter (fun r => decide (r.Room_ID = ro))).filter
        (fun r => decide (r.Day_Full = d)))).length := by
    intro ro d
    unfold heat_cell
    congr 1
    rw [List.filter_filter]
    refine List.filter_congr (fun r _ => ?_)
    cases hR : decide (r.Room_ID = ro) <;> cases hD : decide (r.Day_Full = d) <;>
      simp_all [decide_eq_true_eq, decide_eq_false_iff_not]
  have hinner : ∀ ro,
      ((day_cols rows).map (fun d => heat_cell rows ro d)).sum =
        (((heatRestricted rows).filter (fun r => decide (r.Day_Full ∈ day_order))).filter
          (fun r => decide (r.Room_ID = ro))).length := by
    intro ro
    rw [map_congr' _ _ _ (fun d _ => hcell ro d)]
    have hpart := sum_partition (fun r : Row => r.Day_Full)
      ((heatRestricted rows).filter (fun r => decide (r.Room_ID = ro)))
      (day_cols rows) hndcols
    rw [hpart]
    have hcg : ∀ r ∈ (heatRestricted rows).filter (fun s => decide (s.Room_ID = ro)),
        decide (r.Day_Full ∈ day_cols rows) = decide (r.Day_Full ∈ day_order) := by
      intro r hr
      have hrX : r ∈ heatRestricted rows := List.mem_of_mem_filter hr
      have hpres : r.Day_Full ∈ (heatRestricted rows).map (fun s => s.Day_Full) :=
        List.mem_map_of_mem _ hrX
      refine decide_eq_decide.mpr ?_
      unfold day_cols
      simp only [List.mem_filter, decide_eq_true_eq]
      exact ⟨fun h => h.1, fun h => ⟨h, hpres⟩⟩
    rw [List.filter_congr hcg, filter_comm']
  unfold heat_sum
  rw [map_congr' _ _ _ (fun ro _ => hinner ro)]
  have hpart2 := sum_partition (fun r : Row => r.Room_ID)
    ((heatRestricted rows).filter (fun r => decide (r.Day_Full ∈ day_order)))
    (heat_rooms rows) hndrooms
  rw [hpart2]
  have htrue : ∀ r ∈ (heatRestricted rows).filter
      (fun s => decide (s.Day_Full ∈ day_order)),
      decide (r.Room_ID ∈ heat_rooms rows) = true := by
    intro r hr
    exact decide_eq_true (heatRestricted_room_mem rows r (List.mem_of_mem_filter hr))
  rw [List.filter_congr htrue, List.filter_true]

/-- C6 counterexample: on the one-row table whose `Days` code is `"MW"`,
the room is the (single) top room and has one session, but no canonical day
name occurs, so `day_cols` is empty and the sum over all retained cells is
`0`, not the `1` session of the top-15 rooms the claim requires. -/
theorem heatmap_sum_counterexample :
    top_rooms (load_data [rawMW]) = ["Bldg A - Room 101"] ∧
    (heatRestricted (load_data [rawMW])).length = 1 ∧
    day_cols (load_data [rawMW]) = [] ∧
    heat_sum (load_data [rawMW]) = 0 ∧
    heat_sum (load_data [rawMW]) ≠ (heatRestricted (load_data [rawMW])).length := by
  refine ⟨by decide, by decide, by decide, by decide, by decide⟩

/-- C6 (amended): every row label of the heatmap is among the top-15 rooms;
every cell is a count (hence non-negative); the sum over all cells equals
the number of sessions in the top-15 rooms whose `Day_Full` is one of the
canonical day names (the column restriction of line 135 drops sessions with
unmapped day codes, as the counterexample forces); and the day columns are
the canonical week ordering restricted to the `Day_Full` values present
among the top-15-room rows. -/
theorem heatmap_amended (rows : List Row) :
    (∀ ro, ro ∈ heat_rooms rows → ro ∈ top_rooms rows) ∧
    (∀ ro d, 0 ≤ heat_cell rows ro d) ∧
    heat_sum rows =
      ((heatRestricted rows).filter
        (fun r => decide (r.Day_Full ∈ day_order))).length ∧
    (day_cols rows).Sublist day_order ∧
    (∀ d, d ∈ day_cols rows ↔
      d ∈ day_order ∧ d ∈ (heatRestricted rows).map (fun r => r.Day_Full)) := by
  refine ⟨?_, fun ro d => Nat.zero_le _, heat_sum_eq rows, List.filter_sublist _, ?_⟩
  · intro ro hro
    rw [heat_rooms, mem_firstUniques] at hro
    obtain ⟨r, hr, rfl⟩ := List.mem_map.mp hro
    have := (List.mem_filter.mp hr).2
    simpa using this
  · intro d
    unfold day_cols
    simp [List.mem_filter]

/-- Witness for `heatmap_amended`: the three-row sample table, whose one
top room `"Bldg A - Room 101"` appears among the heatmap rows. -/
theorem heatmap_amended_witness :
    "Bldg A - Room 101" ∈ top_rooms (load_data sampleRaws) ∧
    heat_sum (load_data sampleRaws) =
      ((heatRestricted (load_data sampleRaws)).filter
        (fun r => decide (r.Day_Full ∈ day_order))).length :=
  ⟨(heatmap_amended (load_data sampleRaws)).1 "Bldg A - Room 101" (by decide),
   (heatmap_amended (load_data sampleRaws)).2.2.1⟩

end Dashboard
